import Mathlib

/-!
# Mini-Shell job-control engine: a shallow embedding

This file embeds the job-control and pipeline-execution core of the
mini UNIX shell (`src/minishell.c`) as executable Lean definitions and
proves the specification claims about it.

Conventions of the embedding:
* The fixed-capacity C array `jobs[MAX_JOBS]` together with `job_count`
  is modelled as a `List Job`; `next_job_id` is carried in `ShellState`.
* Process-group ids and process ids (`pid_t`) are modelled as `Nat`.
* OS interactions (`waitpid` outcomes, `kill(-pgid, 0)` probes, `fork`
  success, `execvp` lookup) are oracles passed in as explicit data, so
  the control flow of the C code is reproduced exactly while the kernel
  behaviour stays abstract.
-/

set_option linter.unusedVariables false

namespace MiniShell

/-- Job states, mirroring `typedef enum { JOB_RUNNING, JOB_STOPPED, JOB_DONE }`. -/
inductive JobState where
  | running
  | stopped
  | done
deriving DecidableEq, Repr

/-- One entry of the job table, mirroring `struct Job` (fields `id`, `pgid`,
`cmdline`, `state`). -/
structure Job where
  id : Nat
  pgid : Nat
  cmdline : String
  state : JobState
deriving DecidableEq, Repr

/-- The shell's mutable job-registration state: the `jobs` array (with its
`job_count`) and the `next_job_id` counter. -/
structure ShellState where
  jobs : List Job
  nextJobId : Nat
deriving DecidableEq, Repr

/-- `MAX_JOBS` from the source. -/
def MAX_JOBS : Nat := 64

/-- `MAX_ARGS` from the source. -/
def MAX_ARGS : Nat := 128

/-- `find_job_index_by_id`: linear scan returning the first index whose
entry has the given id (`-1` in C becomes `none`). -/
def find_job_index_by_id : List Job → Nat → Option Nat
  | [], _ => none
  | j :: rest, id =>
    if j.id = id then some 0
    else (find_job_index_by_id rest id).map (· + 1)

/-- `find_job_index_by_pgid`: linear scan returning the first index whose
entry has the given process-group id. -/
def find_job_index_by_pgid : List Job → Nat → Option Nat
  | [], _ => none
  | j :: rest, pgid =>
    if j.pgid = pgid then some 0
    else (find_job_index_by_pgid rest pgid).map (· + 1)

/-- `print_jobs`: the sequence of entries actually displayed — every entry
whose state is not `JOB_DONE`, in table (insertion) order.  Printing reads
the table and writes nothing. -/
def print_jobs (jobs : List Job) : List Job :=
  jobs.filter (fun j => decide (j.state ≠ JobState.done))

/-- `remove_done_jobs`: the in-place compaction loop, written as the same
left-to-right pass with a write cursor (here an accumulator): each entry
whose state is not `JOB_DONE` is copied to the next write slot. -/
def remove_done_jobs (jobs : List Job) : List Job :=
  jobs.foldl (fun acc j => if j.state ≠ JobState.done then acc ++ [j] else acc) []

/-- `add_job_entry`: if the table is full (`job_count >= MAX_JOBS`) return
silently; otherwise append an entry carrying `next_job_id++`. -/
def add_job_entry (s : ShellState) (pgid : Nat) (cmdline : String) (st : JobState) :
    ShellState :=
  if MAX_JOBS ≤ s.jobs.length then s
  else
    { jobs := s.jobs ++ [{ id := s.nextJobId, pgid := pgid, cmdline := cmdline, state := st }],
      nextJobId := s.nextJobId + 1 }

/-! ## Signal reaper (`sigchld_handler`) -/

/-- A child-state-change event as decoded by the handler's status tests:
`WIFSTOPPED`, `WIFCONTINUED`, `WIFEXITED`, `WIFSIGNALED`. -/
inductive ChildEvent where
  | stopped
  | continued
  | exited
  | signaled
deriving DecidableEq, Repr

/-- The job state the handler writes for each kind of event. -/
def event_state : ChildEvent → JobState
  | ChildEvent.stopped => JobState.stopped
  | ChildEvent.continued => JobState.running
  | ChildEvent.exited => JobState.done
  | ChildEvent.signaled => JobState.done

/-- Overwrite the state of the first entry with the given process-group id,
leaving everything else alone; a table with no matching entry is returned
unchanged.  This is `find_job_index_by_pgid` followed by
`jobs[idx].state = st`, fused into one scan. -/
def update_job_state : List Job → Nat → JobState → List Job
  | [], _, _ => []
  | j :: rest, pgid, st =>
    if j.pgid = pgid then { j with state := st } :: rest
    else j :: update_job_state rest pgid st

/-- Processing of a single reaped event `(pg, ev)` where `pg` is
`getpgid(pid)` of the reaped child: look the group up and, when tracked,
write the corresponding state. -/
def reap_event (jobs : List Job) (pgid : Nat) (ev : ChildEvent) : List Job :=
  update_job_state jobs pgid (event_state ev)

/-- `sigchld_handler`: one invocation drains a whole batch of pending
events (the `while (waitpid(...)) > 0` loop), processing them in order. -/
def sigchld_handler (jobs : List Job) (events : List (Nat × ChildEvent)) : List Job :=
  events.foldl (fun js e => reap_event js e.1 e.2) jobs

/-! ## Parsing (`parse_command`) -/

/-- A parsed pipeline stage, mirroring `struct Command`: argument vector,
optional `<` target, optional `>`/`>>` target with the append flag. -/
structure Command where
  argv : List String
  infile : Option String
  outfile : Option String
  append : Bool
deriving DecidableEq, Repr

/-- The token-consuming loop of `parse_command`.  `argc` counts stored
arguments; the C loop runs `while (tok && argc < MAX_ARGS-1)`.  A
redirection operator consumes the following token as its filename when
one exists and is dropped silently otherwise. -/
def parse_loop : List String → Nat → Command → Command
  | [], _, c => c
  | t :: rest, argc, c =>
    if argc < MAX_ARGS - 1 then
      if t = "<" then
        match rest with
        | [] => c
        | f :: rest2 => parse_loop rest2 argc { c with infile := some f }
      else if t = ">" then
        match rest with
        | [] => c
        | f :: rest2 => parse_loop rest2 argc { c with outfile := some f, append := false }
      else if t = ">>" then
        match rest with
        | [] => c
        | f :: rest2 => parse_loop rest2 argc { c with outfile := some f, append := true }
      else parse_loop rest (argc + 1) { c with argv := c.argv ++ [t] }
    else c

/-- `parse_command`: run the loop over the whitespace-token stream of one
pipeline segment starting from the zeroed `Command` (`memset(cmd, 0, ...)`). -/
def parse_command (tokens : List String) : Command :=
  parse_loop tokens 0 { argv := [], infile := none, outfile := none, append := false }

/-! ## Builtin dispatch and execution planning (`execute_line`) -/

/-- The names `is_builtin` compares against. -/
def builtin_names : List String :=
  ["cd", "pwd", "exit", "jobs", "fg", "bg", "kill", "history"]

/-- `is_builtin`: an empty argument vector counts as builtin
(`if (!cmd->argv[0]) return true;`), otherwise the name is compared
against the fixed list. -/
def is_builtin (cmd : Command) : Bool :=
  match cmd.argv with
  | [] => true
  | name :: _ => builtin_names.contains name

/-- What `execute_line` decides to do with a non-empty segment list:
either run a builtin synchronously in the shell process, or launch the
stages as a pipeline of child processes. -/
inductive ExecPlan where
  | runBuiltinInProcess (cmd : Command)
  | launchPipeline (cmds : List Command)
deriving DecidableEq, Repr

/-- The dispatch at the top of `execute_line`: zero segments is a no-op;
a single segment parsing to a builtin runs in-process; everything else
becomes a pipeline launch of the parsed stages. -/
def execute_line_plan (segs : List (List String)) : Option ExecPlan :=
  match segs with
  | [] => none
  | [s] =>
    let c := parse_command s
    if is_builtin c then some (ExecPlan.runBuiltinInProcess c)
    else some (ExecPlan.launchPipeline [c])
  | s :: s2 :: rest => some (ExecPlan.launchPipeline ((s :: s2 :: rest).map parse_command))

/-- What a forked stage does after wiring pipes and redirections:
an empty stage exits 0; otherwise `execvp` either replaces the image
(the lookup succeeded) or the child exits with status 127. -/
inductive ChildBehavior where
  | exitStatus (code : Nat)
  | execProgram (name : String)
deriving DecidableEq, Repr

/-- The tail of the child branch of `execute_line`, with `lookup_ok`
standing for whether `execvp` finds an executable for the name. -/
def child_run (cmd : Command) (lookup_ok : String → Bool) : ChildBehavior :=
  match cmd.argv with
  | [] => ChildBehavior.exitStatus 0
  | name :: _ =>
    if lookup_ok name then ChildBehavior.execProgram name
    else ChildBehavior.exitStatus 127

/-! ## The fork loop of `execute_line` -/

/-- Result of the stage-creation loop: the stage indices for which a child
process was successfully forked (and is alive when the loop ends), and
whether the loop was aborted by a `fork` failure. -/
structure SpawnResult where
  children : List Nat
  failed : Bool
deriving DecidableEq, Repr

/-- The `for (i = 0; i < nseg; i++) { fork(); ... }` loop, with
`fork_ok i` standing for whether the `fork` for stage `i` succeeds.
On failure the code prints the error and returns at once
(`if (pid == -1) { perror("fork"); return; }`): no signal is sent to and
no wait is performed on the children already forked, so they stay in
`children`. -/
def spawn_from (fork_ok : Nat → Bool) : Nat → Nat → List Nat → SpawnResult
  | 0, _, acc => { children := acc, failed := false }
  | remaining + 1, i, acc =>
    if fork_ok i then spawn_from fork_ok remaining (i + 1) (acc ++ [i])
    else { children := acc, failed := true }

/-- Run the stage-creation loop for an `nseg`-stage pipeline. -/
def spawn_children (fork_ok : Nat → Bool) (nseg : Nat) : SpawnResult :=
  spawn_from fork_ok nseg 0 []

/-! ## Job-control builtins (`run_builtin`) -/

/-- Oracle for the OS-dependent parts of `fg`: whether the blocking
`waitpid(-pgid, ..., WUNTRACED)` loop observed a stop, and whether the
closing `kill(-pgid, 0)` probe reported the group gone (`ESRCH`). -/
structure OsOracle where
  fg_wait_stopped : Bool
  group_vanished : Bool
deriving DecidableEq, Repr

/-- `jobs[idx].state = st` on the table, out-of-range indices unchanged. -/
def set_job_state : List Job → Nat → JobState → List Job
  | [], _, _ => []
  | j :: rest, 0, st => { j with state := st } :: rest
  | j :: rest, n + 1, st => j :: set_job_state rest n st

/-- Outcome of one job-control builtin: the table afterwards, the C
return value, and the message written to `stderr`, if any. -/
structure OpResult where
  jobs : List Job
  retval : Int
  reported : Option String
deriving DecidableEq, Repr

/-- The `fg` branch of `run_builtin`, after `atoi`: unknown ids print
`fg: no such job` and return `-1` touching nothing; otherwise the state
is set to `Stopped` when the wait saw a stop, then to `Done` when the
group has vanished. -/
def fg_op (jobs : List Job) (id : Nat) (os : OsOracle) : OpResult :=
  match find_job_index_by_id jobs id with
  | none => { jobs := jobs, retval := -1, reported := some "fg: no such job" }
  | some idx =>
    let jobs1 := if os.fg_wait_stopped then set_job_state jobs idx JobState.stopped else jobs
    let jobs2 := if os.group_vanished then set_job_state jobs1 idx JobState.done else jobs1
    { jobs := jobs2, retval := 0, reported := none }

/-- The `bg` branch of `run_builtin`: unknown ids report and return `-1`;
otherwise `SIGCONT` is sent and the state is set to `Running`. -/
def bg_op (jobs : List Job) (id : Nat) : OpResult :=
  match find_job_index_by_id jobs id with
  | none => { jobs := jobs, retval := -1, reported := some "bg: no such job" }
  | some idx =>
    { jobs := set_job_state jobs idx JobState.running, retval := 0, reported := none }

/-- The `kill` branch of `run_builtin`: unknown ids report and return
`-1`; otherwise `SIGTERM` is sent to the group and the entry is marked
`Done` immediately. -/
def kill_op (jobs : List Job) (id : Nat) : OpResult :=
  match find_job_index_by_id jobs id with
  | none => { jobs := jobs, retval := -1, reported := some "kill: no such job" }
  | some idx =>
    { jobs := set_job_state jobs idx JobState.done, retval := 0, reported := none }

/-- The `jobs` builtin: `remove_done_jobs(); print_jobs();` — first
compacts the table, then displays what remains.  The pair is (table
afterwards, displayed sequence). -/
def jobs_builtin (jobs : List Job) : List Job × List Job :=
  let jobs2 := remove_done_jobs jobs
  (jobs2, print_jobs jobs2)

/-- The effect of `run_builtin` on the job table, dispatching on
`argv[0]` exactly as the C chain of `strcmp`s does; `to_int` stands for
`atoi` on the id argument.  `cd`, `pwd`, `exit` and `history` never read
or write the table. -/
def run_builtin_jobs (argv : List String) (to_int : String → Nat)
    (jobs : List Job) (os : OsOracle) : List Job :=
  match argv with
  | [] => jobs
  | name :: args =>
    if name = "jobs" then remove_done_jobs jobs
    else if name = "fg" then
      match args with
      | [] => jobs
      | a :: _ => (fg_op jobs (to_int a) os).jobs
    else if name = "bg" then
      match args with
      | [] => jobs
      | a :: _ => (bg_op jobs (to_int a)).jobs
    else if name = "kill" then
      match args with
      | [] => jobs
      | a :: _ => (kill_op jobs (to_int a)).jobs
    else jobs

/-! ## Background registration (`execute_line`, background branch) -/

/-- The background epilogue of `execute_line`:
`add_job_entry(pgid, full_cmd, JOB_RUNNING);` followed by
`printf("[%d] ...", jobs[job_count-1].id, pgid)` — note the printed id is
read back from the last slot of the table, not from the entry the call
tried to add. -/
def background_register (s : ShellState) (pgid : Nat) (cmdline : String) :
    ShellState × Option Nat :=
  let s2 := add_job_entry s pgid cmdline JobState.running
  (s2, s2.jobs.getLast?.map (fun j => j.id))

/-! ## Basic lemmas -/

/-- The ids of a job table, in order. -/
def job_ids (jobs : List Job) : List Nat := jobs.map (fun j => j.id)

theorem remove_done_jobs_foldl (l : List Job) (acc : List Job) :
    l.foldl (fun acc j => if j.state ≠ JobState.done then acc ++ [j] else acc) acc
      = acc ++ l.filter (fun j => decide (j.state ≠ JobState.done)) := by
  induction l generalizing acc with
  | nil => simp
  | cons j rest ih =>
    rw [List.foldl_cons]
    by_cases h : j.state = JobState.done
    · have h1 : (if j.state ≠ JobState.done then acc ++ [j] else acc) = acc := by
        simp [h]
      rw [h1, ih, List.filter_cons]
      simp [h]
    · have h1 : (if j.state ≠ JobState.done then acc ++ [j] else acc) = acc ++ [j] := by
        simp [h]
      rw [h1, ih, List.filter_cons]
      simp [h]

theorem remove_done_jobs_eq_filter (l : List Job) :
    remove_done_jobs l = l.filter (fun j => decide (j.state ≠ JobState.done)) := by
  unfold remove_done_jobs
  rw [remove_done_jobs_foldl]
  rfl

theorem update_job_state_no_match (jobs : List Job) (pg : Nat) (st : JobState)
    (h : ∀ j ∈ jobs, j.pgid ≠ pg) : update_job_state jobs pg st = jobs := by
  induction jobs with
  | nil => rfl
  | cons j rest ih =>
    simp only [update_job_state]
    rw [if_neg (h j (List.mem_cons_self j rest))]
    rw [ih (fun x hx => h x (List.mem_cons_of_mem j hx))]

theorem update_job_state_first_match :
    ∀ (jobs : List Job) (pg : Nat) (st : JobState) (i : Nat) (h : i < jobs.length),
      (jobs.get ⟨i, h⟩).pgid = pg →
      (∀ k (hk : k < i), (jobs.get ⟨k, Nat.lt_trans hk h⟩).pgid ≠ pg) →
      update_job_state jobs pg st = jobs.set i { jobs.get ⟨i, h⟩ with state := st } := by
  intro jobs
  induction jobs with
  | nil =>
    intro pg st i h
    exact absurd h (Nat.not_lt_zero i)
  | cons j rest ih =>
    intro pg st i h hmatch hearlier
    cases i with
    | zero =>
      have hm : j.pgid = pg := hmatch
      simp only [update_job_state]
      rw [if_pos hm]
      rfl
    | succ n =>
      have hj : j.pgid ≠ pg := hearlier 0 (Nat.succ_pos n)
      simp only [update_job_state]
      rw [if_neg hj]
      have h' : n < rest.length := Nat.lt_of_succ_lt_succ h
      have hrec := ih pg st n h' hmatch
        (fun k hk => hearlier (k + 1) (Nat.succ_lt_succ hk))
      rw [hrec]
      rfl

/-- Claim C1: each child-state-change event collected by the reaper whose
process group matches no tracked job leaves the table unchanged; an event
matching the tracked job at index `i` rewrites exactly that entry's state
— a stop event to `Stopped`, a resume event to `Running`, an exit or
fatal-signal event to `Done` — and a batch is processed event by event in
order. -/
theorem sigchld_reap_updates_matching_job (jobs : List Job) (pg : Nat) (ev : ChildEvent) :
    ((∀ j ∈ jobs, j.pgid ≠ pg) → reap_event jobs pg ev = jobs)
    ∧ (∀ i (h : i < jobs.length), (jobs.get ⟨i, h⟩).pgid = pg →
        (∀ k (hk : k < i), (jobs.get ⟨k, Nat.lt_trans hk h⟩).pgid ≠ pg) →
        reap_event jobs pg ev
          = jobs.set i { jobs.get ⟨i, h⟩ with state := event_state ev })
    ∧ event_state ChildEvent.stopped = JobState.stopped
    ∧ event_state ChildEvent.continued = JobState.running
    ∧ event_state ChildEvent.exited = JobState.done
    ∧ event_state ChildEvent.signaled = JobState.done
    ∧ (∀ js : List Job, sigchld_handler js [] = js)
    ∧ (∀ (js : List Job) (e : Nat × ChildEvent) (rest : List (Nat × ChildEvent)),
        sigchld_handler js (e :: rest) = sigchld_handler (reap_event js e.1 e.2) rest) := by
  refine ⟨?_, ?_, rfl, rfl, rfl, rfl, fun js => rfl, fun js e rest => rfl⟩
  · intro h
    exact update_job_state_no_match jobs pg (event_state ev) h
  · intro i h hmatch hearlier
    exact update_job_state_first_match jobs pg (event_state ev) i h hmatch hearlier

/-- Witness for C1 at a concrete two-job table: a stop event for pgid 60
rewrites exactly the second entry to `Stopped`. -/
theorem sigchld_reap_updates_matching_job_witness :
    reap_event [⟨1, 50, "sleep 5", JobState.running⟩, ⟨2, 60, "cat", JobState.running⟩]
        60 ChildEvent.stopped
      = [⟨1, 50, "sleep 5", JobState.running⟩, ⟨2, 60, "cat", JobState.stopped⟩] := by
  have h := (sigchld_reap_updates_matching_job
      [⟨1, 50, "sleep 5", JobState.running⟩, ⟨2, 60, "cat", JobState.running⟩]
      60 ChildEvent.stopped).2.1 1 (by decide) (by decide) (by decide)
  simpa using h

/-- Claim C5: `compact()` (`remove_done_jobs`) removes exactly the `Done`
entries and keeps the rest — with their id, pgid, command text and state
untouched — in their original relative order: it is the order-preserving
filter of the table by `state ≠ Done`, and in particular a sublist of the
input table. -/
theorem remove_done_jobs_removes_exactly_done (l : List Job) :
    remove_done_jobs l = l.filter (fun j => decide (j.state ≠ JobState.done))
      ∧ (remove_done_jobs l).Sublist l := by
  refine ⟨remove_done_jobs_eq_filter l, ?_⟩
  rw [remove_done_jobs_eq_filter]
  exact List.filter_sublist l

/-- Claim C6: compaction is idempotent — running `remove_done_jobs` twice
yields the same table as running it once. -/
theorem remove_done_jobs_idempotent (l : List Job) :
    remove_done_jobs (remove_done_jobs l) = remove_done_jobs l := by
  simp only [remove_done_jobs_eq_filter, List.filter_filter]
  congr 1
  funext j
  exact Bool.and_self _

theorem find_job_index_by_id_eq_none (jobs : List Job) (id : Nat)
    (h : ∀ j ∈ jobs, j.id ≠ id) : find_job_index_by_id jobs id = none := by
  induction jobs with
  | nil => rfl
  | cons j rest ih =>
    simp only [find_job_index_by_id]
    rw [if_neg (h j (List.mem_cons_self j rest))]
    rw [ih (fun x hx => h x (List.mem_cons_of_mem j hx))]
    rfl

/-- Claim C4: each of the `fg`, `bg` and `kill` builtins, invoked with a
job id held by no table entry, reports its `no such job` message to
stderr, returns `-1` (a value, so the shell's loop goes on), and leaves
the job table exactly as it was — nothing added, removed or mutated. -/
theorem job_ops_no_such_job (jobs : List Job) (id : Nat) (os : OsOracle)
    (h : ∀ j ∈ jobs, j.id ≠ id) :
    fg_op jobs id os = { jobs := jobs, retval := -1, reported := some "fg: no such job" }
    ∧ bg_op jobs id = { jobs := jobs, retval := -1, reported := some "bg: no such job" }
    ∧ kill_op jobs id = { jobs := jobs, retval := -1, reported := some "kill: no such job" } := by
  have hf := find_job_index_by_id_eq_none jobs id h
  refine ⟨?_, ?_, ?_⟩ <;> simp [fg_op, bg_op, kill_op, hf]

/-- Witness for C4: a one-entry table holding only job 1; id 9 is unknown
to all three operations and the table survives untouched. -/
theorem job_ops_no_such_job_witness :
    fg_op [⟨1, 50, "sleep 5", JobState.running⟩] 9 ⟨false, false⟩
        = { jobs := [⟨1, 50, "sleep 5", JobState.running⟩], retval := -1,
            reported := some "fg: no such job" }
    ∧ bg_op [⟨1, 50, "sleep 5", JobState.running⟩] 9
        = { jobs := [⟨1, 50, "sleep 5", JobState.running⟩], retval := -1,
            reported := some "bg: no such job" }
    ∧ kill_op [⟨1, 50, "sleep 5", JobState.running⟩] 9
        = { jobs := [⟨1, 50, "sleep 5", JobState.running⟩], retval := -1,
            reported := some "kill: no such job" } :=
  job_ops_no_such_job [⟨1, 50, "sleep 5", JobState.running⟩] 9 ⟨false, false⟩ (by decide)

/-- Claim C2 (code bug demonstration): in a two-stage launch where the
`fork` for stage 0 succeeds and the `fork` for stage 1 fails, the loop
aborts (`failed = true`) but the child already forked for stage 0 is
still alive in `children` — `execute_line` returns without signalling or
reaping it, so a process of the failed launch survives. -/
theorem fork_failure_leaves_children_running :
    spawn_children (fun i => decide (i = 0)) 2 = { children := [0], failed := true }
    ∧ (spawn_children (fun i => decide (i = 0)) 2).children ≠ [] := by
  exact ⟨rfl, by decide⟩

theorem job_ids_set_job_state (l : List Job) (st : JobState) :
    ∀ i, job_ids (set_job_state l i st) = job_ids l := by
  induction l with
  | nil => intro i; rfl
  | cons j rest ih =>
    intro i
    cases i with
    | zero => rfl
    | succ n =>
      simp only [set_job_state, job_ids, List.map_cons]
      have := ih n
      simp only [job_ids] at this
      rw [this]

theorem fg_op_job_ids (jobs : List Job) (id : Nat) (os : OsOracle) :
    job_ids (fg_op jobs id os).jobs = job_ids jobs := by
  unfold fg_op
  cases find_job_index_by_id jobs id with
  | none => rfl
  | some idx =>
    simp only
    by_cases h1 : os.fg_wait_stopped <;> by_cases h2 : os.group_vanished <;>
      simp [h1, h2, job_ids_set_job_state]

theorem bg_op_job_ids (jobs : List Job) (id : Nat) :
    job_ids (bg_op jobs id).jobs = job_ids jobs := by
  unfold bg_op
  cases find_job_index_by_id jobs id with
  | none => rfl
  | some idx => simp [job_ids_set_job_state]

theorem kill_op_job_ids (jobs : List Job) (id : Nat) :
    job_ids (kill_op jobs id).jobs = job_ids jobs := by
  unfold kill_op
  cases find_job_index_by_id jobs id with
  | none => rfl
  | some idx => simp [job_ids_set_job_state]

theorem run_builtin_jobs_ids_sublist (argv : List String) (to_int : String → Nat)
    (jobs : List Job) (os : OsOracle) :
    (job_ids (run_builtin_jobs argv to_int jobs os)).Sublist (job_ids jobs) := by
  match argv with
  | [] => exact List.Sublist.refl _
  | name :: args =>
    by_cases h1 : name = "jobs"
    · simp only [run_builtin_jobs, h1, if_pos]
      rw [remove_done_jobs_eq_filter]
      exact List.Sublist.map _ (List.filter_sublist jobs)
    · by_cases h2 : name = "fg"
      · cases args with
        | nil => simp only [run_builtin_jobs, h1, h2]; simp
        | cons a rest =>
          simp only [run_builtin_jobs, h1, h2]
          simp [fg_op_job_ids]
      · by_cases h3 : name = "bg"
        · cases args with
          | nil => simp only [run_builtin_jobs, h1, h2, h3]; simp
          | cons a rest =>
            simp only [run_builtin_jobs, h1, h2, h3]
            simp [bg_op_job_ids]
        · by_cases h4 : name = "kill"
          · cases args with
            | nil => simp only [run_builtin_jobs, h1, h2, h3, h4]; simp
            | cons a rest =>
              simp only [run_builtin_jobs, h1, h2, h3, h4]
              simp [kill_op_job_ids]
          · simp only [run_builtin_jobs, h1, h2, h3, h4]
            simp

/-- Claim C3: a single-segment line whose parsed command is a builtin is
dispatched to the in-process builtin path (no fork, no process group, no
job registration happens on that path, and running any builtin never adds
a job-table entry — its table effect at most compacts or rewrites states,
so the id multiset never grows); a line of two or more segments is always
planned as a child-process pipeline of every parsed stage — builtin names
included — and a forked stage whose program lookup fails exits with the
not-found status 127. -/
theorem builtin_dispatch_single_vs_pipeline :
    (∀ toks : List String, is_builtin (parse_command toks) = true →
        execute_line_plan [toks] = some (ExecPlan.runBuiltinInProcess (parse_command toks)))
    ∧ (∀ (argv : List String) (to_int : String → Nat) (jobs : List Job) (os : OsOracle),
        (job_ids (run_builtin_jobs argv to_int jobs os)).Sublist (job_ids jobs))
    ∧ (∀ (s1 s2 : List String) (rest : List (List String)),
        execute_line_plan (s1 :: s2 :: rest)
          = some (ExecPlan.launchPipeline ((s1 :: s2 :: rest).map parse_command)))
    ∧ (∀ (cmd : Command) (name : String) (args : List String) (lookup_ok : String → Bool),
        cmd.argv = name :: args → builtin_names.contains name = true →
        lookup_ok name = false →
        child_run cmd lookup_ok = ChildBehavior.exitStatus 127) := by
  refine ⟨?_, run_builtin_jobs_ids_sublist, fun s1 s2 rest => rfl, ?_⟩
  · intro toks h
    simp [execute_line_plan, h]
  · intro cmd name args lookup_ok hargv hbuiltin hlookup
    simp [child_run, hargv, hlookup]

/-- Witness for C3 at concrete inputs: `jobs` alone runs in-process, and
a forked `cd` stage of a multi-stage pipeline exits 127 when no
executable named `cd` exists. -/
theorem builtin_dispatch_single_vs_pipeline_witness :
    execute_line_plan [["jobs"]]
        = some (ExecPlan.runBuiltinInProcess (parse_command ["jobs"]))
    ∧ child_run (parse_command ["cd", "dir"]) (fun _ => false)
        = ChildBehavior.exitStatus 127 :=
  ⟨builtin_dispatch_single_vs_pipeline.1 ["jobs"] (by decide),
   builtin_dispatch_single_vs_pipeline.2.2.2 (parse_command ["cd", "dir"]) "cd" ["dir"]
     (fun _ => false) (by decide) (by decide) rfl⟩

/-! ## Job-id assignment (C7) -/

/-- The id bookkeeping invariant of the session: every tracked id is
below the `next_job_id` counter, and the ids stand in strictly
increasing table order. -/
def JobIdInv (s : ShellState) : Prop :=
  (∀ j ∈ s.jobs, j.id < s.nextJobId) ∧ (job_ids s.jobs).Pairwise (· < ·)

theorem job_ids_update_job_state (l : List Job) (pg : Nat) (st : JobState) :
    job_ids (update_job_state l pg st) = job_ids l := by
  induction l with
  | nil => rfl
  | cons j rest ih =>
    simp only [update_job_state]
    by_cases h : j.pgid = pg
    · rw [if_pos h]; rfl
    · rw [if_neg h]
      simp only [job_ids, List.map_cons]
      simp only [job_ids] at ih
      rw [ih]

/-- Claim C7: job ids are assigned monotonically from a counter that
only ever grows — whenever the table is not full, the registered entry
is appended carrying exactly the current counter value and the counter
is bumped; the counter never decreases; the invariant (all tracked ids
below the counter, ids strictly increasing in table order) holds
initially and is preserved by registration, by compaction and by every
state-only mutation (reaping, `fg`/`bg`/`kill` state writes), and it
forces the tracked ids to be pairwise distinct.  Together these give
that an id of a removed or `Done` job is never handed out again: any
later assignment uses a counter value strictly above every id ever
assigned before. -/
theorem job_id_assignment_monotone :
    (∀ (s : ShellState) (pgid : Nat) (cmdline : String) (st : JobState),
        s.jobs.length < MAX_JOBS →
        (add_job_entry s pgid cmdline st).jobs
            = s.jobs ++ [{ id := s.nextJobId, pgid := pgid, cmdline := cmdline, state := st }]
        ∧ (add_job_entry s pgid cmdline st).nextJobId = s.nextJobId + 1)
    ∧ (∀ (s : ShellState) (pgid : Nat) (cmdline : String) (st : JobState),
        s.nextJobId ≤ (add_job_entry s pgid cmdline st).nextJobId)
    ∧ (∀ (s : ShellState) (pgid : Nat) (cmdline : String) (st : JobState),
        JobIdInv s → JobIdInv (add_job_entry s pgid cmdline st))
    ∧ (∀ s : ShellState, JobIdInv s → (job_ids s.jobs).Nodup)
    ∧ (∀ (l : List Job) (n : Nat), JobIdInv ⟨l, n⟩ → JobIdInv ⟨remove_done_jobs l, n⟩)
    ∧ (∀ (l : List Job) (pg : Nat) (ev : ChildEvent),
        job_ids (reap_event l pg ev) = job_ids l)
    ∧ (∀ (l : List Job) (i : Nat) (st : JobState),
        job_ids (set_job_state l i st) = job_ids l)
    ∧ JobIdInv { jobs := [], nextJobId := 1 } := by
  refine ⟨?_, ?_, ?_, ?_, ?_, ?_, ?_, ?_⟩
  · intro s pgid cmdline st h
    unfold add_job_entry
    rw [if_neg (Nat.not_le.mpr h)]
    exact ⟨rfl, rfl⟩
  · intro s pgid cmdline st
    unfold add_job_entry
    by_cases h : MAX_JOBS ≤ s.jobs.length
    · rw [if_pos h]
    · rw [if_neg h]
      exact Nat.le_succ _
  · intro s pgid cmdline st hinv
    unfold add_job_entry
    by_cases h : MAX_JOBS ≤ s.jobs.length
    · rw [if_pos h]; exact hinv
    · rw [if_neg h]
      constructor
      · intro j hj
        rcases List.mem_append.mp hj with hj1 | hj2
        · exact Nat.lt_trans (hinv.1 j hj1) (Nat.lt_succ_self _)
        · have : j = { id := s.nextJobId, pgid := pgid, cmdline := cmdline, state := st } := by
            simpa using hj2
          rw [this]
          exact Nat.lt_succ_self _
      · show (job_ids (s.jobs ++ [_])).Pairwise (· < ·)
        rw [job_ids, List.map_append]
        refine List.pairwise_append.mpr ⟨hinv.2, List.pairwise_singleton _ _, ?_⟩
        intro a ha b hb
        rcases List.mem_map.mp ha with ⟨j, hj, rfl⟩
        have hb' : b = s.nextJobId := by simpa using hb
        rw [hb']
        exact hinv.1 j hj
  · intro s hinv
    exact hinv.2.imp (fun hab => Nat.ne_of_lt hab)
  · intro l n hinv
    constructor
    · intro j hj
      rw [remove_done_jobs_eq_filter] at hj
      exact hinv.1 j (List.mem_of_mem_filter hj)
    · have hsub : (job_ids (remove_done_jobs l)).Sublist (job_ids l) := by
        rw [remove_done_jobs_eq_filter]
        exact List.Sublist.map _ (List.filter_sublist l)
      exact hinv.2.sublist hsub
  · intro l pg ev
    exact job_ids_update_job_state l pg (event_state ev)
  · intro l i st
    exact job_ids_set_job_state l st i
  · exact ⟨by simp, by simp [job_ids]⟩

/-- Witness for C7: registering on a concrete well-formed one-entry table
preserves the id invariant. -/
theorem job_id_assignment_monotone_witness :
    JobIdInv (add_job_entry { jobs := [⟨1, 50, "sleep 5", JobState.running⟩], nextJobId := 2 }
      60 "cat" JobState.running) :=
  job_id_assignment_monotone.2.2.1
    { jobs := [⟨1, 50, "sleep 5", JobState.running⟩], nextJobId := 2 }
    60 "cat" JobState.running ⟨by decide, by decide⟩

/-! ## The `jobs` builtin (C8) -/

/-- Claim C8 counterexample: the `jobs` builtin is
`remove_done_jobs(); print_jobs();`, so on a table holding a `Done`
entry it does mutate the job table — afterwards the table no longer
holds the same entries as before the call, contradicting the claim that
the operation "does not mutate any state". -/
theorem jobs_builtin_mutation_counterexample :
    (jobs_builtin [⟨1, 50, "sleep 5", JobState.done⟩]).1
        ≠ [⟨1, 50, "sleep 5", JobState.done⟩]
    ∧ (jobs_builtin [⟨1, 50, "sleep 5", JobState.done⟩]).1 = [] := by
  exact ⟨by decide, by decide⟩

/-- Claim C8 as amended: the `jobs` builtin first compacts the table and
then displays what remains; the displayed sequence is exactly the
non-`Done` entries of the original table in insertion order, the table
afterwards holds exactly those same entries in that same order, and the
display step itself adds, removes and rewrites nothing (it returns the
compacted table verbatim). -/
theorem jobs_builtin_compacts_then_lists (l : List Job) :
    (jobs_builtin l).1 = l.filter (fun j => decide (j.state ≠ JobState.done))
    ∧ (jobs_builtin l).2 = l.filter (fun j => decide (j.state ≠ JobState.done))
    ∧ (jobs_builtin l).2 = (jobs_builtin l).1 := by
  have h1 : (jobs_builtin l).1 = l.filter (fun j => decide (j.state ≠ JobState.done)) := by
    show remove_done_jobs l = _
    exact remove_done_jobs_eq_filter l
  have h2 : (jobs_builtin l).2 = (jobs_builtin l).1 := by
    show print_jobs (remove_done_jobs l) = remove_done_jobs l
    rw [remove_done_jobs_eq_filter, print_jobs, List.filter_filter]
    congr 1
    funext j
    exact Bool.and_self _
  exact ⟨h1, h2.trans h1, h2⟩

/-! ## Full-table background registration (C10) -/

/-- Claim C10: with the table already holding `MAX_JOBS` entries,
`add_job_entry` returns silently having changed nothing — no entry, no
counter bump, no report — and the background branch still goes on to
print `jobs[job_count-1].id`, i.e. the id of the table's last existing
entry, not an id of the unregistered pipeline. -/
theorem full_table_background_register (s : ShellState) (pgid : Nat) (cmdline : String)
    (h : s.jobs.length = MAX_JOBS) :
    add_job_entry s pgid cmdline JobState.running = s
    ∧ (background_register s pgid cmdline).1 = s
    ∧ (background_register s pgid cmdline).2 = s.jobs.getLast?.map (fun j => j.id) := by
  have hfull : MAX_JOBS ≤ s.jobs.length := Nat.le_of_eq h.symm
  have hadd : add_job_entry s pgid cmdline JobState.running = s := by
    unfold add_job_entry
    rw [if_pos hfull]
  refine ⟨hadd, ?_, ?_⟩
  · show (add_job_entry s pgid cmdline JobState.running) = s
    exact hadd
  · show ((add_job_entry s pgid cmdline JobState.running).jobs.getLast?).map _ = _
    rw [hadd]

/-- Witness for C10 on a concrete 64-entry table: registration is a
no-op and the printed id is that of the existing last entry (id 64). -/
theorem full_table_background_register_witness :
    (background_register
        { jobs := (List.range MAX_JOBS).map
            (fun i => ⟨i + 1, 100 + i, "sleep 5", JobState.running⟩),
          nextJobId := 65 } 777 "cat").1
      = { jobs := (List.range MAX_JOBS).map
            (fun i => ⟨i + 1, 100 + i, "sleep 5", JobState.running⟩),
          nextJobId := 65 }
    ∧ (background_register
        { jobs := (List.range MAX_JOBS).map
            (fun i => ⟨i + 1, 100 + i, "sleep 5", JobState.running⟩),
          nextJobId := 65 } 777 "cat").2 = some 64 := by
  have h := full_table_background_register
    { jobs := (List.range MAX_JOBS).map
        (fun i => ⟨i + 1, 100 + i, "sleep 5", JobState.running⟩),
      nextJobId := 65 } 777 "cat" (by decide)
  refine ⟨h.2.1, ?_⟩
  rw [h.2.2]
  decide

/-! ## Dangling redirection operators (C9) -/

/-- The three redirection operator tokens. -/
def redirection_ops : List String := ["<", ">", ">>"]

/-- The descriptor update a redirection operator performs on consuming
its filename token. -/
def op_update (t f : String) (c : Command) : Command :=
  if t = "<" then { c with infile := some f }
  else if t = ">" then { c with outfile := some f, append := false }
  else { c with outfile := some f, append := true }

theorem parse_loop_stop (ts : List String) (argc : Nat) (c : Command)
    (ha : ¬ argc < MAX_ARGS - 1) : parse_loop ts argc c = c := by
  cases ts with
  | nil => rfl
  | cons t rest =>
    unfold parse_loop
    rw [if_neg ha]

theorem parse_loop_op_nil (op : String) (argc : Nat) (c : Command)
    (hop : op ∈ redirection_ops) : parse_loop [op] argc c = c := by
  by_cases ha : argc < MAX_ARGS - 1
  · simp only [redirection_ops] at hop
    fin_cases hop <;> simp [parse_loop, ha]
  · exact parse_loop_stop _ _ _ ha

theorem parse_loop_op_cons (t f : String) (rest : List String) (argc : Nat) (c : Command)
    (hop : t ∈ redirection_ops) (ha : argc < MAX_ARGS - 1) :
    parse_loop (t :: f :: rest) argc c = parse_loop rest argc (op_update t f c) := by
  simp only [redirection_ops] at hop
  fin_cases hop <;> simp [parse_loop, op_update, ha]

theorem parse_loop_arg_cons (t : String) (rest : List String) (argc : Nat) (c : Command)
    (hop : t ∉ redirection_ops) (ha : argc < MAX_ARGS - 1) :
    parse_loop (t :: rest) argc c
      = parse_loop rest (argc + 1) { c with argv := c.argv ++ [t] } := by
  simp only [redirection_ops, List.mem_cons, List.not_mem_nil, or_false] at hop
  push_neg at hop
  obtain ⟨h1, h2, h3⟩ := hop
  unfold parse_loop
  rw [if_pos ha, if_neg h1, if_neg h2, if_neg h3]
  exact (parse_loop.eq_def _ _ _).symm ▸ rfl

theorem parse_loop_dangling :
    ∀ (n : Nat) (ts : List String) (argc : Nat) (c : Command) (op : String),
      ts.length ≤ n → op ∈ redirection_ops → ts.getLast? = some op →
      (∀ p, ts.dropLast.getLast? = some p → p ∉ redirection_ops) →
      parse_loop ts argc c = parse_loop ts.dropLast argc c := by
  intro n
  induction n with
  | zero =>
    intro ts argc c op hlen hop hlast hpen
    have hnil : ts = [] := List.length_eq_zero.mp (Nat.le_zero.mp hlen)
    rw [hnil] at hlast
    simp at hlast
  | succ n ih =>
    intro ts argc c op hlen hop hlast hpen
    rcases ts with _ | ⟨t, ts'⟩
    · simp at hlast
    rcases ts' with _ | ⟨t2, rest⟩
    · -- singleton [t]: the dangling operator itself, silently dropped
      have ht : t = op := by simpa using hlast
      rw [ht]
      exact parse_loop_op_nil op argc c hop
    by_cases ha : argc < MAX_ARGS - 1
    · by_cases hto : t ∈ redirection_ops
      · rcases rest with _ | ⟨t3, rest'⟩
        · -- ts = [t, t2] with t an operator: t2 is t's filename, but then
          -- the penultimate token of ts is the operator t — excluded
          exact absurd hto (hpen t (by rfl))
        · rw [parse_loop_op_cons t t2 (t3 :: rest') argc c hto ha]
          show _ = parse_loop (t :: t2 :: (t3 :: rest').dropLast) argc c
          rw [parse_loop_op_cons t t2 ((t3 :: rest').dropLast) argc c hto ha]
          apply ih (t3 :: rest') argc (op_update t t2 c) op
          · simp only [List.length_cons] at hlen ⊢
            omega
          · exact hop
          · have h1 := hlast
            rw [List.getLast?_cons_cons, List.getLast?_cons_cons] at h1
            exact h1
          · intro p hp
            apply hpen p
            show (t :: t2 :: (t3 :: rest').dropLast).getLast? = some p
            cases hY : (t3 :: rest').dropLast with
            | nil =>
              rw [hY] at hp
              simp at hp
            | cons y ys =>
              rw [hY] at hp
              rw [List.getLast?_cons_cons, List.getLast?_cons_cons]
              exact hp
      · rw [parse_loop_arg_cons t (t2 :: rest) argc c hto ha]
        show _ = parse_loop (t :: (t2 :: rest).dropLast) argc c
        rw [parse_loop_arg_cons t ((t2 :: rest).dropLast) argc c hto ha]
        apply ih (t2 :: rest) (argc + 1) _ op
        · simp only [List.length_cons] at hlen ⊢
          omega
        · exact hop
        · have h1 := hlast
          rw [List.getLast?_cons_cons] at h1
          exact h1
        · intro p hp
          apply hpen p
          show (t :: (t2 :: rest).dropLast).getLast? = some p
          cases hY : (t2 :: rest).dropLast with
          | nil =>
            rw [hY] at hp
            simp at hp
          | cons y ys =>
            rw [hY] at hp
            rw [List.getLast?_cons_cons]
            exact hp
    · rw [parse_loop_stop _ _ _ ha, parse_loop_stop _ _ _ ha]

/-- Claim C9 counterexample: the token stream `a < <` has the operator
`<` as its last token with no filename after it, yet `parse_command`
does not ignore it — the trailing `<` is consumed as the *filename* of
the preceding operator, so an input redirection (to a file literally
named `<`) is recorded, and the non-final operator token does not become
a positional argument: the result differs from parsing the stream
without its last token. -/
theorem parse_dangling_operator_counterexample :
    (["a", "<", "<"] : List String).getLast? = some "<"
    ∧ (parse_command ["a", "<", "<"]).infile = some "<"
    ∧ (parse_command ["a", "<", "<"]).argv = ["a"]
    ∧ parse_command ["a", "<", "<"] ≠ parse_command ["a", "<"] :=
  ⟨by decide, by decide, by decide, by decide⟩

/-- Claim C9 as amended: for every stage token stream whose last token is
a redirection operator that is not itself consumed as the filename of a
directly preceding operator (it suffices that the second-to-last token,
when present, is not an operator token), the construction silently drops
the trailing operator: the resulting descriptor — argument vector and
both redirection fields — is exactly the one built from the stream
without its last token, and no error is produced (the parser has no
error output at all). -/
theorem parse_dangling_operator_ignored (ts : List String) (op : String)
    (hop : op ∈ redirection_ops) (hlast : ts.getLast? = some op)
    (hpen : ∀ p, ts.dropLast.getLast? = some p → p ∉ redirection_ops) :
    parse_command ts = parse_command ts.dropLast :=
  parse_loop_dangling ts.length ts 0 _ op (Nat.le_refl _) hop hlast hpen

/-- Witness for C9 (amended) on `ls -l >`: the dangling `>` is dropped. -/
theorem parse_dangling_operator_ignored_witness :
    parse_command ["ls", "-l", ">"] = parse_command ["ls", "-l"] :=
  parse_dangling_operator_ignored ["ls", "-l", ">"] ">" (by decide) (by decide)
    (fun p hp => by
      simp at hp
      subst hp
      decide)

end MiniShell
